import Mathlib

set_option maxRecDepth 100000

/-!
Shallow embedding of `pptgenerator.py` (PDF-to-PowerPoint generator).

Strings are modelled as `List Char`; Python string operations
(`split`, `strip`, `replace`, `startswith`, the `in` operator) are
embedded as executable Lean functions with the same semantics.
Python exceptions are modelled with `Except`; the generation service
(`model.generate_content`) is an opaque function that either returns a
response text or raises.
-/

namespace PPTGen

/-- Characters of a Lean string literal, used to write Python string literals. -/
def chars (s : String) : List Char := s.data

/-- Python `str.split(sep)` worker: scans the input left to right, consuming
one character per step; `acc` holds the characters of the current chunk in
reverse order.  When `sep` matches at the current position the chunk is
emitted and `skip` is set so that the remaining `sep.length - 1` separator
characters are passed over without being re-examined — exactly CPython's
left-to-right, non-overlapping `str.split` with a non-empty separator. -/
def splitScan (sep : List Char) : List Char → List Char → Nat → List (List Char)
  | [], acc, _ => [acc.reverse]
  | _ :: rest, acc, skip + 1 => splitScan sep rest acc skip
  | c :: rest, acc, 0 =>
    if sep.isPrefixOf (c :: rest) then
      acc.reverse :: splitScan sep rest [] (sep.length - 1)
    else
      splitScan sep rest (c :: acc) 0

/-- Python `s.split(sep)` for a non-empty separator. -/
def pySplit (sep s : List Char) : List (List Char) := splitScan sep s [] 0

/-- Joins chunks with a separator: the inverse of a split. -/
def joinSep (sep : List Char) : List (List Char) → List Char
  | [] => []
  | [x] => x
  | x :: y :: rest => x ++ sep ++ joinSep sep (y :: rest)

/-- Python `pat in s` (substring containment). -/
def isSubstr (pat : List Char) : List Char → Bool
  | [] => pat.isEmpty
  | c :: rest => pat.isPrefixOf (c :: rest) || isSubstr pat rest

/-- Python `str.replace(pat, rep)` for a non-empty pattern: CPython replaces
every non-overlapping occurrence left to right, which equals
`rep.join(s.split(pat))`. -/
def pyReplace (s pat rep : List Char) : List Char := joinSep rep (pySplit pat s)

/-- Whitespace characters stripped by Python's `str.strip()` (ASCII range). -/
def pyIsSpace (c : Char) : Bool :=
  c == ' ' || c == '\t' || c == '\n' || c == '\r' || c == '\x0b' || c == '\x0c'

/-- Removes characters satisfying `p` from both ends of a list. -/
def stripWhile (p : Char → Bool) (s : List Char) : List Char :=
  ((s.dropWhile p).reverse.dropWhile p).reverse

/-- Python `str.strip()` (no argument): strips whitespace from both ends. -/
def pyStrip (s : List Char) : List Char := stripWhile pyIsSpace s

/-- Python `str.strip(cs)`: strips any of the characters in `cs` from both ends. -/
def pyStripChars (cs : List Char) (s : List Char) : List Char :=
  stripWhile (fun c => cs.contains c) s

/-- Python `str.startswith(pat)`. -/
def pyStartsWith (pat s : List Char) : Bool := pat.isPrefixOf s

/-- The decimal digit with value `d % 10`, as a character. -/
def digitChar (d : Nat) : Char := (chars "0123456789").getD (d % 10) '0'

/-- Decimal digit characters of `n` (auxiliary, fuelled recursion on `n`). -/
def natCharsAux : Nat → Nat → List Char
  | 0, _ => []
  | fuel + 1, n =>
    if n < 10 then [digitChar n]
    else natCharsAux fuel (n / 10) ++ [digitChar (n % 10)]

/-- Decimal representation of `n` as characters, as Python's `f"{n}"`. -/
def natChars (n : Nat) : List Char := natCharsAux (n + 1) n

/-! ### Configuration constants (source lines 26-29) -/

def MAX_PDF_SIZE_MB : Nat := 50
def MAX_SLIDES : Nat := 10
def PROCESSING_CHUNK_SIZE : Nat := 15000
def MIN_CONTENT_LENGTH : Nat := 100

/-! ### Module-level global bindings (source lines 1-29 and function defs)

Python resolves a bare name inside a function body against the module's
global namespace.  These are all the names bound at module level in
`pptgenerator.py`: the imports (lines 1-14), the constants (lines 23-29)
and the module's own function definitions. -/

def module_globals : List (List Char) :=
  [chars "os", chars "load_dotenv", chars "tempfile", chars "st",
   chars "PdfReader", chars "pdfplumber", chars "genai", chars "Presentation",
   chars "Inches", chars "Pt", chars "RGBColor", chars "PP_ALIGN",
   chars "datetime", chars "Optional", chars "Tuple",
   chars "MODEL_NAME", chars "MAX_PDF_SIZE_MB", chars "MAX_SLIDES",
   chars "PROCESSING_CHUNK_SIZE", chars "MIN_CONTENT_LENGTH",
   chars "configure_gemini", chars "extract_text_from_pdf",
   chars "generate_slide_structure", chars "generate_slide_content",
   chars "create_presentation", chars "main"]

/-- Result of `configure_gemini` (source lines 33-48): either a configured
model handle, or the `st.error` + `st.stop()` exception branch. -/
inductive ConfigResult where
  | model (sampling_ok : Bool)
  | stopped (err : List Char)
deriving DecidableEq

/-- Model of `configure_gemini` (source lines 33-48).  The body's `try` block
first evaluates the bare name `GEMINI_API_KEY`; in Python this is a global
lookup that raises `NameError` when the name is unbound at module level.
`genaiOk` models whether the external `genai` calls would succeed if reached. -/
def configure_gemini (genaiOk : Bool) : ConfigResult :=
  if module_globals.contains (chars "GEMINI_API_KEY") then
    if genaiOk then .model true
    else .stopped (chars "Failed to configure Gemini")
  else
    .stopped (chars "Failed to configure Gemini: name GEMINI_API_KEY is not defined")

/-! ### Text extraction (source lines 50-83) -/

/-- One extraction provider's view of the PDF: the per-page results of
`page.extract_text()` (`[]` models both `None` and the empty string, which
are equally falsy in the `if page_text:` test), plus whether the provider
raises an exception after yielding these pages (the exception is caught and
only issues a `st.warning`, keeping the text accumulated so far). -/
structure ProviderRun where
  pages : List (List Char)
  raisesAfter : Bool
deriving DecidableEq

/-- A PDF source, as seen by the two extraction providers. -/
structure PdfFile where
  plumber : ProviderRun
  pypdf2 : ProviderRun
deriving DecidableEq

/-- The page loop shared by both providers (source lines 58-63 and 72-77):
append each truthy page text with its `[Page i+1]` marker, breaking after the
append once the accumulated length exceeds `PROCESSING_CHUNK_SIZE`. -/
def extract_pages (text : List Char) : List (List Char) → Nat → List Char
  | [], _ => text
  | p :: rest, i =>
    let text' :=
      if p.isEmpty then text
      else text ++ chars "\n\n[Page " ++ natChars (i + 1) ++ chars "]\n" ++ p
    if PROCESSING_CHUNK_SIZE < text'.length then text'
    else extract_pages text' rest (i + 1)

/-- Model of `extract_text_from_pdf` (source lines 50-83).  Returns the pair
the Python function returns, plus an instrumentation flag recording whether
the PyPDF2 fallback loop was entered (`len(text) < MIN_CONTENT_LENGTH` after
the pdfplumber pass, line 68). -/
def extract_text_from_pdf (pdf : PdfFile) :
    Option (List Char) × Option (List Char) × Bool :=
  let textA := extract_pages [] pdf.plumber.pages 0
  let usedB : Bool := textA.length < MIN_CONTENT_LENGTH
  let text :=
    if textA.length < MIN_CONTENT_LENGTH then extract_pages textA pdf.pypdf2.pages 0
    else textA
  if MIN_CONTENT_LENGTH < text.length then (some text, none, usedB)
  else (none, some (chars "Failed to extract sufficient text (document may be scanned)"), usedB)

/-! ### Slide content generation (source lines 114-147) -/

/-- The generation service: from the truncated document text embedded in the
prompt and the slide title, produce a response text, or `none` when the
underlying `model.generate_content` call raises. -/
def GenService := List Char → List Char → Option (List Char)

/-- Placeholder substituted when the service returns blank text (line 141). -/
def blank_placeholder : List Char :=
  chars "- Key point from document (Page X)\n- Important finding (Page Y)\n- Relevant detail (Page Z)"

/-- Placeholder substituted when the service raises (line 147). -/
def exception_placeholder : List Char :=
  chars "- Document point 1 (Page X)\n- Document point 2 (Page Y)\n- Document point 3 (Page Z)"

/-- `any(marker in content for marker in ['-', '•', '*'])` (line 142). -/
def hasMarker (content : List Char) : Bool :=
  isSubstr (chars "-") content || isSubstr (chars "•") content ||
    isSubstr (chars "*") content

/-- Whether a line begins with one of the bullet markers `-`, `•`, `*`. -/
def startsWithBullet (line : List Char) : Bool :=
  match line with
  | [] => false
  | c :: _ => c == '-' || c == '•' || c == '*'

/-- Whether some line of the text begins with a bullet marker (the
bullet-prefixed-lines reading of the SlideContent shape). -/
def hasBulletLine (s : List Char) : Bool :=
  (pySplit (chars "\n") s).any startsWithBullet

/-- Model of `generate_slide_content` (source lines 114-147).  The prompt
embeds `pdf_text[:PROCESSING_CHUNK_SIZE]` and the slide title; the service
call either raises (fixed placeholder, line 147) or returns `content`, which
is post-processed by lines 140-145. -/
def generate_slide_content (model : GenService) (pdf_text slide_title : List Char) :
    List Char :=
  match model (pdf_text.take PROCESSING_CHUNK_SIZE) slide_title with
  | none => exception_placeholder
  | some content =>
    if (pyStrip content).isEmpty then blank_placeholder
    else if !hasMarker content then
      chars "- " ++ pyReplace content (chars "\n") (chars "\n- ")
    else content

/-! ### Outline parsing inside `create_presentation` (source lines 166-173) -/

/-- The parsing loop of `create_presentation` (lines 167-173), one line at a
time.  A line starting with `Slide` is split on `' - '`; with at least two
parts, `parts[0].split(': ')[1]` is taken — an out-of-range index here is a
Python `IndexError`, which aborts the whole loop — and stripped of outer
brackets.  Any other line is skipped. -/
def parse_lines : List (List Char) → Except (List Char) (List (List Char))
  | [] => .ok []
  | line :: rest =>
    if pyStartsWith (chars "Slide") line then
      match pySplit (chars " - ") line with
      | p0 :: _ :: _ =>
        match (pySplit (chars ": ") p0).get? 1 with
        | some seg =>
          match parse_lines rest with
          | .ok ts => .ok (pyStripChars (chars "[]") seg :: ts)
          | .error e => .error e
        | none => .error (chars "IndexError: list index out of range")
      | _ => parse_lines rest
    else parse_lines rest

/-- The slide-plan parsing step of `create_presentation` (lines 166-173):
split the outline text into lines and run the parsing loop. -/
def parse_slide_structure (slide_structure : List Char) :
    Except (List Char) (List (List Char)) :=
  parse_lines (pySplit (chars "\n") slide_structure)

/-! ### Presentation assembly (source lines 149-208) -/

/-- Environment for the `python-pptx` and filesystem effects inside
`create_presentation`: whether building the title slide succeeds, the
timestamp text, whether building/formatting a content slide succeeds, and the
result of the temp-file save (`none` models a raised exception). -/
structure PptxEnv where
  titleSlideOk : Bool
  now : List Char
  contentSlideOk : Bool
  saveResult : Option (List Char)
deriving DecidableEq

/-- The assembled presentation artifact: a title slide (title text, subtitle
text) plus content slides, each a (displayed title, body content) pair. -/
structure Pres where
  titleSlide : List Char × List Char
  contentSlides : List (List Char × List Char)
deriving DecidableEq

/-- The content-slide loop of `create_presentation` (lines 176-199): for each
planned title (already capped at `MAX_SLIDES`), skip it when it contains
`'[Title Slide]'`; otherwise generate its content, then build the slide with
the bracket-free title — any `python-pptx` failure raises. -/
def content_slides_of_plan (env : PptxEnv) (model : GenService) (pdf_text : List Char) :
    List (List Char) → Except (List Char) (List (List Char × List Char))
  | [] => .ok []
  | slide_title :: rest =>
    if isSubstr (chars "[Title Slide]") slide_title then
      content_slides_of_plan env model pdf_text rest
    else
      let content := generate_slide_content model pdf_text slide_title
      if !env.contentSlideOk then .error (chars "slide creation failed")
      else
        match content_slides_of_plan env model pdf_text rest with
        | .ok slides =>
          .ok ((pyReplace (pyReplace slide_title (chars "[") []) (chars "]") [],
                content) :: slides)
        | .error e => .error e

/-- The `try` body of `create_presentation` (lines 151-204): build the title
slide, parse the slide plan, build a content slide for each of the first
`MAX_SLIDES` plan entries, then save, returning the presentation and the temp
file path.  Any exception at any step propagates. -/
def create_presentation_body (env : PptxEnv) (model : GenService)
    (ppt_title slide_structure pdf_text : List Char) :
    Except (List Char) (Pres × List Char) :=
  if !env.titleSlideOk then .error (chars "title slide creation failed")
  else
    match parse_slide_structure slide_structure with
    | .error e => .error e
    | .ok slides_to_create =>
      match content_slides_of_plan env model pdf_text
          (slides_to_create.take MAX_SLIDES) with
      | .error e => .error e
      | .ok contentSlides =>
        match env.saveResult with
        | some path =>
          .ok ({ titleSlide := (ppt_title, chars "Generated " ++ env.now),
                 contentSlides := contentSlides }, path)
        | none => .error (chars "save failed")

/-- Model of `create_presentation` (source lines 149-208): the body wrapped in
the catch-all `except` that reports the error and returns `None`. -/
def create_presentation (env : PptxEnv) (model : GenService)
    (ppt_title slide_structure pdf_text : List Char) : Option (List Char) :=
  match create_presentation_body env model ppt_title slide_structure pdf_text with
  | .ok (_, path) => some path
  | .error _ => none

/-! ### Re-serialization of a slide plan (for the idempotence property) -/

/-- One outline line of the separator shape `Slide <n>: [<title>] - <rest>`. -/
def reserialize_line (n : Nat) (t : List Char) : List Char :=
  chars "Slide " ++ natChars n ++ chars ": [" ++ t ++ chars "] - content"

/-- The outline lines for a list of titles, numbered from `n`. -/
def reserialize_from (n : Nat) : List (List Char) → List (List Char)
  | [] => []
  | t :: ts => reserialize_line n t :: reserialize_from (n + 1) ts

/-- Re-serializes a parsed slide plan into outline text of the same separator
shape, joining the lines with newlines. -/
def reserialize_outline (ts : List (List Char)) : List Char :=
  joinSep (chars "\n") (reserialize_from 1 ts)

/-! ### Derived views and sample inputs used in the statements -/

instance {ε α : Type} [DecidableEq ε] [DecidableEq α] : DecidableEq (Except ε α) :=
  fun x y =>
    match x, y with
    | .ok a, .ok b =>
      if h : a = b then .isTrue (by rw [h])
      else .isFalse (by intro he; injection he; contradiction)
    | .error a, .error b =>
      if h : a = b then .isTrue (by rw [h])
      else .isFalse (by intro he; injection he; contradiction)
    | .ok _, .error _ => .isFalse fun h => Except.noConfusion h
    | .error _, .ok _ => .isFalse fun h => Except.noConfusion h

/-- The text accumulated by the extraction pipeline: provider A's output,
extended by provider B's pages whenever A's alone falls short of
`MIN_CONTENT_LENGTH` (mirrors the merging in lines 52-79). -/
def merged_extracted_text (pdf : PdfFile) : List Char :=
  let text := extract_pages [] pdf.plumber.pages 0
  if text.length < MIN_CONTENT_LENGTH then extract_pages text pdf.pypdf2.pages 0
  else text

/-- A line the parsing loop silently skips: it does not start with `Slide`,
or it has no `' - '` separator. -/
def line_skipped (line : List Char) : Bool :=
  !(pyStartsWith (chars "Slide") line) ||
    (pySplit (chars " - ") line).length < 2

/-- A line on which the parsing loop raises `IndexError`: it starts with
`Slide` and has a `' - '` separator, but the part before the first `' - '`
contains no `': '`. -/
def line_crashes (line : List Char) : Bool :=
  pyStartsWith (chars "Slide") line &&
    2 ≤ (pySplit (chars " - ") line).length &&
    (pySplit (chars ": ") ((pySplit (chars " - ") line).headD [])).length < 2

/-- The characters stripped by `.strip('[]')`. -/
def isBracket (c : Char) : Bool := (chars "[]").contains c

/-- A parsed title is clean when it contains none of the parser's separators,
no newline, and no bracket at either end — every title the parser produces
has this shape. -/
def cleanTitle (t : List Char) : Bool :=
  !(isSubstr (chars " - ") t) && !(isSubstr (chars ": ") t) &&
    !(isSubstr (chars "\n") t) &&
    (match t.head? with
     | some c => !(isBracket c)
     | none => true) &&
    (match t.getLast? with
     | some c => !(isBracket c)
     | none => true)

/-- A well-formed 5-entry outline exactly in the required output format of
`generate_slide_structure` (source lines 95-99). -/
def wellformed_outline : List Char :=
  chars "Slide 1: [Title Slide] - Title: \"Business Report\", Subtitle: \"[Document summary]\"\nSlide 2: [Introduction] - [3-5 specific points from document]\nSlide 3: [Key Finding 1] - [Detailed content from document with page reference]\nSlide 4: [Key Finding 2] - [Detailed content from document with page reference]\nSlide 5: [Conclusion] - [Actionable takeaways]"

/-- An outline with eleven well-formed `Slide` lines. -/
def long_outline : List Char :=
  chars "Slide 1: [T1] - a\nSlide 2: [T2] - a\nSlide 3: [T3] - a\nSlide 4: [T4] - a\nSlide 5: [T5] - a\nSlide 6: [T6] - a\nSlide 7: [T7] - a\nSlide 8: [T8] - a\nSlide 9: [T9] - a\nSlide 10: [T10] - a\nSlide 11: [T11] - a"

/-- An environment in which every `python-pptx` and filesystem effect succeeds. -/
def benign_env : PptxEnv :=
  { titleSlideOk := true, now := chars "12 Oct 2026 00:00",
    contentSlideOk := true, saveResult := some (chars "/tmp/pres.pptx") }

/-- A fixed response text used by the stub generation service. -/
def stub_content : List Char :=
  chars "- Revenue increased by 23% in Q3 (Page 5)"

/-- A generation service that always answers with `stub_content`. -/
def stub_service : GenService := fun _ _ => some stub_content

/-- The presentation assembled from `wellformed_outline` with `benign_env`
and `stub_service` and the presentation title `"T"`. -/
def sample_pres : Pres :=
  { titleSlide := (chars "T", chars "Generated 12 Oct 2026 00:00"),
    contentSlides :=
      [(chars "Title Slide", stub_content),
       (chars "Introduction", stub_content),
       (chars "Key Finding 1", stub_content),
       (chars "Key Finding 2", stub_content),
       (chars "Conclusion", stub_content)] }

/-- A PDF for which each provider alone yields one page of text shorter than
`MIN_CONTENT_LENGTH` (even with its page marker). -/
def pdf_both_short : PdfFile :=
  { plumber := { pages := [chars "Short page text from provider A, under the minimum."],
                 raisesAfter := false },
    pypdf2 := { pages := [chars "Short page text from provider B, under the minimum."],
                raisesAfter := false } }

/-- An outline mixing one well-formed line with lines the parser skips. -/
def mixed_outline : List Char :=
  chars "garbage line\nSlide 2: [Introduction] - points\nSlide extra line without separator"

/-- A PDF from which neither provider extracts any text. -/
def pdf_empty : PdfFile :=
  { plumber := { pages := [], raisesAfter := false },
    pypdf2 := { pages := [], raisesAfter := false } }

/-- A PDF whose first provider alone yields ample text. -/
def pdf_text_rich : PdfFile :=
  { plumber := { pages := [chars "This quarterly business report contains detailed revenue figures, customer satisfaction metrics and strategy notes."],
                 raisesAfter := false },
    pypdf2 := { pages := [chars "fallback text"], raisesAfter := false } }

/-! ## Helper lemmas -/

theorem ne_nil_of_isEmpty_eq_false {l : List Char} (h : l.isEmpty = false) : l ≠ [] := by
  intro hn; subst hn; simp at h

theorem dropWhile_concat_ne_nil (p : Char → Bool) (m : List Char) {x : Char}
    (hx : p x = false) : (m ++ [x]).dropWhile p ≠ [] := by
  induction m with
  | nil => simp [List.dropWhile, hx]
  | cons a m ih =>
    cases ha : p a with
    | true => simpa [List.dropWhile_cons, ha] using ih
    | false => simp [List.dropWhile_cons, ha]

theorem stripWhile_cons_ne_nil (p : Char → Bool) {c : Char} (l : List Char)
    (hc : p c = false) : stripWhile p (c :: l) ≠ [] := by
  unfold stripWhile
  rw [List.dropWhile_cons, if_neg (by simp [hc]), List.reverse_cons]
  intro h
  rw [List.reverse_eq_nil_iff] at h
  exact dropWhile_concat_ne_nil p l.reverse hc h

theorem isSubstr_head_self {c : Char} (l : List Char) : isSubstr [c] (c :: l) = true := by
  simp [isSubstr, List.isPrefixOf]

theorem splitScan_head_shape (sep : List Char) :
    ∀ (l acc : List Char) (skip : Nat),
      ∃ d rest, splitScan sep l acc skip = (acc.reverse ++ d) :: rest := by
  intro l
  induction l with
  | nil => intro acc skip; exact ⟨[], [], by simp [splitScan]⟩
  | cons c l ih =>
    intro acc skip
    cases skip with
    | succ k => simpa [splitScan] using ih acc k
    | zero =>
      by_cases h : sep.isPrefixOf (c :: l)
      · exact ⟨[], splitScan sep l [] (sep.length - 1), by simp [splitScan, h]⟩
      · obtain ⟨d, rest, hd⟩ := ih (c :: acc) 0
        exact ⟨c :: d, rest, by
          simp [splitScan, h, hd, List.reverse_cons, List.append_assoc]⟩

theorem hasBulletLine_dash_space (x : List Char) :
    hasBulletLine (chars "- " ++ x) = true := by
  obtain ⟨d, rest, hd⟩ := splitScan_head_shape (chars "\n") x [' ', '-'] 0
  have e1 : pySplit (chars "\n") (chars "- " ++ x) = splitScan (chars "\n") x [' ', '-'] 0 := rfl
  show (pySplit (chars "\n") (chars "- " ++ x)).any startsWithBullet = true
  rw [e1, hd]
  simp [startsWithBullet]

/-! ## C10: `configure_gemini` always takes its exception branch -/

/-- C10: the name `GEMINI_API_KEY` is not bound at module level, so for every
environment `configure_gemini` raises `NameError` inside its `try` block,
reports the error and stops; the branch returning a configured model is
unreachable. -/
theorem configure_gemini_unreachable_success (genaiOk : Bool) :
    module_globals.contains (chars "GEMINI_API_KEY") = false ∧
    configure_gemini genaiOk =
      .stopped (chars "Failed to configure Gemini: name GEMINI_API_KEY is not defined") ∧
    ∀ b, configure_gemini genaiOk ≠ .model b := by
  cases genaiOk <;> exact ⟨by decide, rfl, by decide⟩

/-! ## C4: `generate_slide_content` always returns usable bullet text -/

theorem gsc_none {model : GenService} {pdf_text slide_title : List Char}
    (hm : model (pdf_text.take PROCESSING_CHUNK_SIZE) slide_title = none) :
    generate_slide_content model pdf_text slide_title = exception_placeholder := by
  unfold generate_slide_content; rw [hm]

theorem gsc_some {model : GenService} {pdf_text slide_title content : List Char}
    (hm : model (pdf_text.take PROCESSING_CHUNK_SIZE) slide_title = some content) :
    generate_slide_content model pdf_text slide_title =
      if (pyStrip content).isEmpty then blank_placeholder
      else if !hasMarker content then
        chars "- " ++ pyReplace content (chars "\n") (chars "\n- ")
      else content := by
  unfold generate_slide_content; rw [hm]

theorem hasMarker_dash_space (x : List Char) : hasMarker (chars "- " ++ x) = true := by
  show (isSubstr (chars "-") ('-' :: ' ' :: x) || _ || _) = true
  rw [show (chars "-") = ['-'] from rfl, isSubstr_head_self]
  simp

/-- C4: for every document text, slide title and service behaviour, the
content returned by `generate_slide_content` is neither empty nor
whitespace-only and contains at least one of the markers `-`, `•`, `*`; when
the service raises, the result is the fixed 3-line placeholder. -/
theorem generate_slide_content_never_blank (model : GenService)
    (pdf_text slide_title : List Char) :
    pyStrip (generate_slide_content model pdf_text slide_title) ≠ [] ∧
    hasMarker (generate_slide_content model pdf_text slide_title) = true ∧
    (model (pdf_text.take PROCESSING_CHUNK_SIZE) slide_title = none →
      generate_slide_content model pdf_text slide_title = exception_placeholder) := by
  cases hm : model (pdf_text.take PROCESSING_CHUNK_SIZE) slide_title with
  | none => rw [gsc_none hm]; exact ⟨by decide, by decide, fun _ => rfl⟩
  | some content =>
    rw [gsc_some hm]
    refine ⟨?_, ?_, fun h => (Option.some_ne_none content h).elim⟩
    · cases hb : (pyStrip content).isEmpty with
      | true => rw [if_pos rfl]; decide
      | false =>
        rw [if_neg (by decide : ¬ (false = true))]
        cases hmk : hasMarker content with
        | false =>
          rw [if_pos (by decide : (!false) = true)]
          exact stripWhile_cons_ne_nil pyIsSpace _ (by decide)
        | true =>
          rw [if_neg (by decide : ¬ ((!true) = true))]
          exact ne_nil_of_isEmpty_eq_false hb
    · cases hb : (pyStrip content).isEmpty with
      | true => rw [if_pos rfl]; decide
      | false =>
        rw [if_neg (by decide : ¬ (false = true))]
        cases hmk : hasMarker content with
        | false =>
          rw [if_pos (by decide : (!false) = true)]
          exact hasMarker_dash_space _
        | true =>
          rw [if_neg (by decide : ¬ ((!true) = true))]
          exact hmk

/-- Witness for C4 at a service that raises. -/
theorem generate_slide_content_never_blank_witness :
    pyStrip (generate_slide_content (fun _ _ => none) (chars "doc") (chars "Introduction")) ≠ [] ∧
    generate_slide_content (fun _ _ => none) (chars "doc") (chars "Introduction") =
      exception_placeholder :=
  ⟨(generate_slide_content_never_blank (fun _ _ => none) (chars "doc") (chars "Introduction")).1,
   (generate_slide_content_never_blank (fun _ _ => none) (chars "doc") (chars "Introduction")).2.2 rfl⟩

/-! ## C5: bullet markers in generated content are not always line-prefixed -/

/-- C5 counterexample: the service returns the non-empty text `co-op`, which
contains a hyphen inside a word, so the marker test passes and the text is
returned unchanged — yet no line of it begins with a bullet marker. -/
theorem bullet_line_counterexample :
    (chars "co-op") ≠ [] ∧
    generate_slide_content (fun _ _ => some (chars "co-op")) (chars "doc") (chars "T") =
      chars "co-op" ∧
    hasBulletLine
      (generate_slide_content (fun _ _ => some (chars "co-op")) (chars "doc") (chars "T")) =
      false := by
  decide

/-- C5 amended: for every non-empty string returned by the service, the
produced SlideContent contains at least one bullet marker somewhere; a
bullet-prefixed line is guaranteed only when the returned text contains no
marker at all (the re-wrap path) or is blank (the placeholder path). -/
theorem generated_content_bullet_struct (model : GenService)
    (pdf_text slide_title s : List Char)
    (hm : model (pdf_text.take PROCESSING_CHUNK_SIZE) slide_title = some s)
    (hs : s ≠ []) :
    hasMarker (generate_slide_content model pdf_text slide_title) = true ∧
    (hasMarker s = false →
      hasBulletLine (generate_slide_content model pdf_text slide_title) = true) := by
  rw [gsc_some hm]
  constructor
  · cases hb : (pyStrip s).isEmpty with
    | true => rw [if_pos rfl]; decide
    | false =>
      rw [if_neg (by decide : ¬ (false = true))]
      cases hmk : hasMarker s with
      | false =>
        rw [if_pos (by decide : (!false) = true)]
        exact hasMarker_dash_space _
      | true =>
        rw [if_neg (by decide : ¬ ((!true) = true))]
        exact hmk
  · intro hmk
    rw [hmk]
    cases hb : (pyStrip s).isEmpty with
    | true => rw [if_pos rfl]; decide
    | false =>
      rw [if_neg (by decide : ¬ (false = true)),
          if_pos (by decide : (!false) = true)]
      exact hasBulletLine_dash_space _

/-- Witness for C5's amended statement at a concrete service response. -/
theorem generated_content_bullet_struct_witness :
    hasMarker (generate_slide_content (fun _ _ => some (chars "x")) (chars "doc") (chars "T")) = true ∧
    (hasMarker (chars "x") = false →
      hasBulletLine
        (generate_slide_content (fun _ _ => some (chars "x")) (chars "doc") (chars "T")) = true) :=
  generated_content_bullet_struct (fun _ _ => some (chars "x")) (chars "doc") (chars "T")
    (chars "x") rfl (by decide)

/-! ## C2: the parsing loop is not raise-free -/

/-- C2 counterexample: the line `Slide 1 - intro` starts with `Slide` and
has a `' - '` separator, but its first part has no `': '`, so
`parts[0].split(': ')[1]` raises `IndexError` instead of skipping the line,
and the enclosing `create_presentation` call returns `None`. -/
theorem parse_raises_counterexample :
    parse_slide_structure (chars "Slide 1 - intro") =
      .error (chars "IndexError: list index out of range") ∧
    create_presentation benign_env stub_service (chars "T")
      (chars "Slide 1 - intro") (chars "doc") = none :=
  ⟨rfl, rfl⟩

theorem parse_lines_ok_of_no_crash :
    ∀ lines : List (List Char), (∀ line ∈ lines, line_crashes line = false) →
      ∃ ts, parse_lines lines = .ok ts := by
  intro lines
  induction lines with
  | nil => exact fun _ => ⟨[], rfl⟩
  | cons line rest ih =>
    intro h
    obtain ⟨ts, hts⟩ := ih (fun l hl => h l (List.mem_cons_of_mem _ hl))
    have hline := h line (List.mem_cons_self line rest)
    cases hsw : pyStartsWith (chars "Slide") line with
    | false => exact ⟨ts, by simp [parse_lines, hsw, hts]⟩
    | true =>
      cases hsp : pySplit (chars " - ") line with
      | nil => exact ⟨ts, by simp [parse_lines, hsw, hsp, hts]⟩
      | cons p0 tail =>
        cases tail with
        | nil => exact ⟨ts, by simp [parse_lines, hsw, hsp, hts]⟩
        | cons p1 ps =>
          cases hseg : (pySplit (chars ": ") p0).get? 1 with
          | some seg =>
            have hseg2 : (pySplit (chars ": ") p0)[1]? = some seg := by
              rw [← List.get?_eq_getElem?]; exact hseg
            exact ⟨pyStripChars (chars "[]") seg :: ts,
              by simp [parse_lines, hsw, hsp, hseg, hseg2, hts]⟩
          | none =>
            exfalso
            have hlen : (pySplit (chars ": ") p0).length < 2 := by
              rw [List.get?_eq_none] at hseg; omega
            have hcr : line_crashes line = true := by
              unfold line_crashes
              rw [hsw, hsp]
              simp [hlen]
            rw [hcr] at hline
            exact Bool.noConfusion hline

/-- C2 amended: every line that does not start with `Slide` or has no
`' - '` separator is silently skipped and parsing proceeds; but a line that
starts with `Slide` and has `' - '` while its first part lacks `': '` raises
`IndexError` — parsing succeeds whenever no line of the latter shape occurs. -/
theorem parse_lines_error_of_crash :
    ∀ lines : List (List Char), (∃ l ∈ lines, line_crashes l = true) →
      parse_lines lines = .error (chars "IndexError: list index out of range") := by
  intro lines
  induction lines with
  | nil => rintro ⟨l, hl, _⟩; simp at hl
  | cons line rest ih =>
    rintro ⟨l, hl, hcr⟩
    rcases List.mem_cons.mp hl with hleq | hmem
    · subst hleq
      unfold line_crashes at hcr
      simp only [Bool.and_eq_true, decide_eq_true_eq] at hcr
      obtain ⟨⟨hsw, hlen⟩, hshort⟩ := hcr
      cases hsp : pySplit (chars " - ") l with
      | nil => rw [hsp] at hlen; simp at hlen
      | cons p0 tail =>
        cases tail with
        | nil =>
          rw [hsp] at hlen
          simp only [List.length_cons, List.length_nil] at hlen
          omega
        | cons p1 ps =>
          rw [hsp] at hshort
          simp only [List.headD_cons] at hshort
          have hseg : (pySplit (chars ": ") p0).get? 1 =
              none := List.get?_eq_none.mpr (by omega)
          have hseg2 : (pySplit (chars ": ") p0)[1]? = none := by
            rw [← List.get?_eq_getElem?]; exact hseg
          simp [parse_lines, hsw, hsp, hseg, hseg2]
    · have hrest := ih ⟨l, hmem, hcr⟩
      cases hsw : pyStartsWith (chars "Slide") line with
      | false => simp [parse_lines, hsw, hrest]
      | true =>
        cases hsp : pySplit (chars " - ") line with
        | nil => simp [parse_lines, hsw, hsp, hrest]
        | cons p0 tail =>
          cases tail with
          | nil => simp [parse_lines, hsw, hsp, hrest]
          | cons p1 ps =>
            cases hseg : (pySplit (chars ": ") p0).get? 1 with
            | none =>
              have hseg2 : (pySplit (chars ": ") p0)[1]? = none := by
                rw [← List.get?_eq_getElem?]; exact hseg
              simp [parse_lines, hsw, hsp, hseg, hseg2]
            | some seg =>
              have hseg2 : (pySplit (chars ": ") p0)[1]? = some seg := by
                rw [← List.get?_eq_getElem?]; exact hseg
              simp [parse_lines, hsw, hsp, hseg, hseg2, hrest]

/-- C2 amended: every line that does not start with `Slide` or has no `' - '`
separator is silently skipped and parsing proceeds with the remaining lines;
but a line that starts with `Slide` and contains `' - '` while its first part
lacks `': '` raises `IndexError`.  Parsing succeeds exactly when no line of
the latter shape occurs, and any outline containing such a line makes the
whole parse raise `IndexError`. -/
theorem parse_tolerant_amended :
    (∀ line rest, line_skipped line = true →
       parse_lines (line :: rest) = parse_lines rest) ∧
    (∀ s, (∃ ts, parse_slide_structure s = .ok ts) ↔
       ∀ line ∈ pySplit (chars "\n") s, line_crashes line = false) ∧
    (∀ s, (∃ line ∈ pySplit (chars "\n") s, line_crashes line = true) →
       parse_slide_structure s = .error (chars "IndexError: list index out of range")) := by
  refine ⟨?_, ?_, ?_⟩
  · intro line rest h
    unfold line_skipped at h
    cases hsw : pyStartsWith (chars "Slide") line with
    | false => simp [parse_lines, hsw]
    | true =>
      rw [hsw] at h
      simp only [Bool.not_true, Bool.false_or, decide_eq_true_eq] at h
      cases hsp : pySplit (chars " - ") line with
      | nil => simp [parse_lines, hsw, hsp]
      | cons p0 tail =>
        cases tail with
        | nil => simp [parse_lines, hsw, hsp]
        | cons p1 ps =>
          rw [hsp] at h
          simp at h
          omega
  · intro s
    constructor
    · rintro ⟨ts, hts⟩ line hline
      cases hcr : line_crashes line with
      | false => rfl
      | true =>
        have herr := parse_lines_error_of_crash (pySplit (chars "\n") s) ⟨line, hline, hcr⟩
        rw [show parse_slide_structure s =
            parse_lines (pySplit (chars "\n") s) from rfl, herr] at hts
        exact Except.noConfusion hts
    · intro h
      exact parse_lines_ok_of_no_crash _ h
  · intro s h
    exact parse_lines_error_of_crash _ h

/-- Witness for C2's amended statement. -/
theorem parse_tolerant_amended_witness :
    parse_lines (chars "junk" :: [chars "Slide 2: [A] - x"]) =
      parse_lines [chars "Slide 2: [A] - x"] ∧
    (∃ ts, parse_slide_structure mixed_outline = .ok ts) ∧
    parse_slide_structure (chars "intro\nSlide 1 - intro") =
      .error (chars "IndexError: list index out of range") :=
  ⟨parse_tolerant_amended.1 (chars "junk") [chars "Slide 2: [A] - x"] (by decide),
   (parse_tolerant_amended.2.1 mixed_outline).mpr (by decide),
   parse_tolerant_amended.2.2 (chars "intro\nSlide 1 - intro") (by decide)⟩

/-! ## C8: the PyPDF2 fallback is lazy -/

/-- C8: whenever pdfplumber alone accumulates at least `MIN_CONTENT_LENGTH`
characters, the PyPDF2 fallback loop is never entered. -/
theorem pypdf2_lazy (pdf : PdfFile)
    (h : MIN_CONTENT_LENGTH ≤ (extract_pages [] pdf.plumber.pages 0).length) :
    (extract_text_from_pdf pdf).2.2 = false := by
  simp only [extract_text_from_pdf]
  rw [if_neg (Nat.not_lt.mpr h)]
  by_cases h2 : MIN_CONTENT_LENGTH < (extract_pages [] pdf.plumber.pages 0).length
  · rw [if_pos h2]
    exact decide_eq_false (Nat.not_lt.mpr h)
  · rw [if_neg h2]
    exact decide_eq_false (Nat.not_lt.mpr h)

/-- Witness for C8 on a text-rich PDF. -/
theorem pypdf2_lazy_witness : (extract_text_from_pdf pdf_text_rich).2.2 = false :=
  pypdf2_lazy pdf_text_rich (by decide)

/-! ## C3: both providers short does not imply an error -/

/-- C3 counterexample: each provider alone yields text shorter than
`MIN_CONTENT_LENGTH`, yet because the outputs are merged by appending, the
accumulated text passes the final length test and the function returns text
with no error — not `(null, error)` as claimed. -/
theorem extract_both_short_counterexample :
    (extract_pages [] pdf_both_short.plumber.pages 0).length < MIN_CONTENT_LENGTH ∧
    (extract_pages [] pdf_both_short.pypdf2.pages 0).length < MIN_CONTENT_LENGTH ∧
    (extract_text_from_pdf pdf_both_short).1 ≠ none ∧
    (extract_text_from_pdf pdf_both_short).2.1 = none := by
  decide

/-- C3 amended: `extract_text_from_pdf` returns `(null, <scanned-document
error>)` exactly on the inputs where the merged accumulated text — provider
A's output, extended by provider B's when A's alone is short — has length at
most `MIN_CONTENT_LENGTH`; both providers being individually short is not
sufficient. -/
theorem extract_error_iff_merged_short (pdf : PdfFile) :
    ((merged_extracted_text pdf).length ≤ MIN_CONTENT_LENGTH →
      (extract_text_from_pdf pdf).1 = none ∧
      (extract_text_from_pdf pdf).2.1 =
        some (chars "Failed to extract sufficient text (document may be scanned)")) ∧
    (MIN_CONTENT_LENGTH < (merged_extracted_text pdf).length →
      (extract_text_from_pdf pdf).1 = some (merged_extracted_text pdf) ∧
      (extract_text_from_pdf pdf).2.1 = none) := by
  simp only [extract_text_from_pdf, merged_extracted_text]
  by_cases hc : (extract_pages [] pdf.plumber.pages 0).length < MIN_CONTENT_LENGTH
  · rw [if_pos hc]
    constructor
    · intro h
      rw [if_neg (Nat.not_lt.mpr h)]
      exact ⟨rfl, rfl⟩
    · intro h
      rw [if_pos h]
      exact ⟨rfl, rfl⟩
  · rw [if_neg hc]
    constructor
    · intro h
      rw [if_neg (Nat.not_lt.mpr h)]
      exact ⟨rfl, rfl⟩
    · intro h
      rw [if_pos h]
      exact ⟨rfl, rfl⟩

/-- Witness for C3's amended statement: the error side on an empty PDF, the
success side on a text-rich PDF. -/
theorem extract_error_iff_merged_short_witness :
    ((extract_text_from_pdf pdf_empty).1 = none ∧
      (extract_text_from_pdf pdf_empty).2.1 =
        some (chars "Failed to extract sufficient text (document may be scanned)")) ∧
    ((extract_text_from_pdf pdf_text_rich).1 = some (merged_extracted_text pdf_text_rich) ∧
      (extract_text_from_pdf pdf_text_rich).2.1 = none) :=
  ⟨(extract_error_iff_merged_short pdf_empty).1 (by decide),
   (extract_error_iff_merged_short pdf_text_rich).2 (by decide)⟩

/-! ## C1: the title-slide marker is not skipped (code bug) -/

/-- C1: on a well-formed 5-entry outline the parser strips the brackets from
`[Title Slide]` before the `'[Title Slide]' in slide_title` check, so the
check never fires and the assembler emits a content slide for the synthetic
`Title Slide` entry: 5 content slides are produced, not at most 4. -/
theorem title_slide_content_slide_emitted :
    parse_slide_structure wellformed_outline =
      .ok [chars "Title Slide", chars "Introduction", chars "Key Finding 1",
           chars "Key Finding 2", chars "Conclusion"] ∧
    content_slides_of_plan benign_env stub_service (chars "doc")
        ([chars "Title Slide", chars "Introduction", chars "Key Finding 1",
          chars "Key Finding 2", chars "Conclusion"].take MAX_SLIDES) =
      .ok [(chars "Title Slide", stub_content), (chars "Introduction", stub_content),
           (chars "Key Finding 1", stub_content), (chars "Key Finding 2", stub_content),
           (chars "Conclusion", stub_content)] ∧
    create_presentation benign_env stub_service (chars "Business Report")
      wellformed_outline (chars "doc") = some (chars "/tmp/pres.pptx") :=
  ⟨rfl, rfl, rfl⟩

/-! ## C7 and C6: assembly cap and all-or-nothing assembly -/

theorem content_slides_length_le (env : PptxEnv) (model : GenService) (pdf_text : List Char) :
    ∀ plan slides, content_slides_of_plan env model pdf_text plan = .ok slides →
      slides.length ≤ plan.length := by
  intro plan
  induction plan with
  | nil =>
    intro slides h
    simp only [content_slides_of_plan] at h
    injection h with h2
    subst h2
    simp
  | cons t rest ih =>
    intro slides h
    simp only [content_slides_of_plan] at h
    cases hmk : isSubstr (chars "[Title Slide]") t with
    | true =>
      rw [hmk, if_pos rfl] at h
      exact le_trans (ih _ h) (Nat.le_succ _)
    | false =>
      rw [hmk, if_neg (by decide : ¬ (false = true))] at h
      cases hok : env.contentSlideOk with
      | false =>
        rw [hok, if_pos (by decide : (!false) = true)] at h
        exact Except.noConfusion h
      | true =>
        rw [hok, if_neg (by decide : ¬ ((!true) = true))] at h
        cases hrec : content_slides_of_plan env model pdf_text rest with
        | error e => rw [hrec] at h; exact Except.noConfusion h
        | ok slides' =>
          rw [hrec] at h
          injection h with h2
          subst h2
          exact Nat.succ_le_succ (ih _ hrec)

theorem body_ok_dissect (env : PptxEnv) (model : GenService)
    (ppt_title slide_structure pdf_text : List Char) (pres : Pres) (path : List Char)
    (h : create_presentation_body env model ppt_title slide_structure pdf_text =
      .ok (pres, path)) :
    env.titleSlideOk = true ∧
    ∃ plan, parse_slide_structure slide_structure = .ok plan ∧
      content_slides_of_plan env model pdf_text (plan.take MAX_SLIDES) =
        .ok pres.contentSlides ∧
      env.saveResult = some path ∧
      pres = { titleSlide := (ppt_title, chars "Generated " ++ env.now),
               contentSlides := pres.contentSlides } := by
  simp only [create_presentation_body] at h
  cases hok : env.titleSlideOk with
  | false =>
    rw [hok, if_pos (by decide : (!false) = true)] at h
    exact Except.noConfusion h
  | true =>
    rw [hok, if_neg (by decide : ¬ ((!true) = true))] at h
    cases hp : parse_slide_structure slide_structure with
    | error e => rw [hp] at h; exact Except.noConfusion h
    | ok plan =>
      rw [hp] at h
      dsimp only at h
      cases hcs : content_slides_of_plan env model pdf_text (plan.take MAX_SLIDES) with
      | error e => rw [hcs] at h; exact Except.noConfusion h
      | ok slides =>
        rw [hcs] at h
        dsimp only at h
        cases hsv : env.saveResult with
        | none => rw [hsv] at h; exact Except.noConfusion h
        | some p =>
          rw [hsv] at h
          dsimp only at h
          injection h with h2
          obtain ⟨h3, h4⟩ := (Prod.mk.injEq _ _ _ _).mp h2
          refine ⟨rfl, plan, rfl, ?_, ?_, ?_⟩
          · rw [← h3]; exact hcs
          · exact congrArg some h4
          · rw [← h3]

theorem create_presentation_some_iff (env : PptxEnv) (model : GenService)
    (ppt_title slide_structure pdf_text path : List Char) :
    create_presentation env model ppt_title slide_structure pdf_text = some path ↔
      ∃ pres, create_presentation_body env model ppt_title slide_structure pdf_text =
        .ok (pres, path) := by
  unfold create_presentation
  cases hb : create_presentation_body env model ppt_title slide_structure pdf_text with
  | error e => simp
  | ok pr =>
    obtain ⟨pres0, path0⟩ := pr
    simp

/-- C7: the assembler emits at most `MAX_SLIDES` content slides for every
outline, while no cap is applied at parse time — an outline parsing to more
than `MAX_SLIDES` titles exists. -/
theorem assembler_caps_at_max_slides :
    (∀ (env : PptxEnv) (model : GenService)
       (ppt_title slide_structure pdf_text : List Char) (pres : Pres) (path : List Char),
       create_presentation_body env model ppt_title slide_structure pdf_text =
         .ok (pres, path) →
       pres.contentSlides.length ≤ MAX_SLIDES) ∧
    (∃ ts, parse_slide_structure long_outline = .ok ts ∧ MAX_SLIDES < ts.length) := by
  constructor
  · intro env model t s d pres path h
    obtain ⟨_, plan, _, hcs, _, _⟩ := body_ok_dissect env model t s d pres path h
    refine le_trans (content_slides_length_le env model d _ _ hcs) ?_
    rw [List.length_take]
    exact min_le_left _ _
  · exact ⟨[chars "T1", chars "T2", chars "T3", chars "T4", chars "T5", chars "T6",
            chars "T7", chars "T8", chars "T9", chars "T10", chars "T11"],
           rfl, by decide⟩

/-- Witness for C7's cap on a concrete successful assembly. -/
theorem assembler_caps_witness : sample_pres.contentSlides.length ≤ MAX_SLIDES :=
  assembler_caps_at_max_slides.1 benign_env stub_service (chars "T") wellformed_outline
    (chars "doc") sample_pres (chars "/tmp/pres.pptx") rfl

/-- C6: `create_presentation` returns a path only when the whole assembly —
title slide, plan parsing, every content slide, and the save — completed,
and returns `None` whenever any step raised; no partial artifact is exposed. -/
theorem assembly_all_or_nothing (env : PptxEnv) (model : GenService)
    (ppt_title slide_structure pdf_text : List Char) :
    (∀ path, create_presentation env model ppt_title slide_structure pdf_text = some path →
       env.titleSlideOk = true ∧
       ∃ plan slides, parse_slide_structure slide_structure = .ok plan ∧
         content_slides_of_plan env model pdf_text (plan.take MAX_SLIDES) = .ok slides ∧
         env.saveResult = some path ∧
         create_presentation_body env model ppt_title slide_structure pdf_text =
           .ok ({ titleSlide := (ppt_title, chars "Generated " ++ env.now),
                  contentSlides := slides }, path)) ∧
    (∀ e, create_presentation_body env model ppt_title slide_structure pdf_text = .error e →
       create_presentation env model ppt_title slide_structure pdf_text = none) := by
  constructor
  · intro path h
    obtain ⟨pres0, hb⟩ :=
      (create_presentation_some_iff env model ppt_title slide_structure pdf_text path).mp h
    obtain ⟨hok, plan, hp, hcs, hsv, hpres⟩ :=
      body_ok_dissect env model ppt_title slide_structure pdf_text pres0 path hb
    refine ⟨hok, plan, pres0.contentSlides, hp, hcs, hsv, ?_⟩
    rw [hb, ← hpres]
  · intro e h
    unfold create_presentation
    rw [h]

/-- Witness for C6 on a concrete successful assembly. -/
theorem assembly_all_or_nothing_witness :
    benign_env.titleSlideOk = true ∧
    ∃ plan slides, parse_slide_structure wellformed_outline = .ok plan ∧
      content_slides_of_plan benign_env stub_service (chars "doc") (plan.take MAX_SLIDES) =
        .ok slides ∧
      benign_env.saveResult = some (chars "/tmp/pres.pptx") ∧
      create_presentation_body benign_env stub_service (chars "T") wellformed_outline
          (chars "doc") =
        .ok ({ titleSlide := (chars "T", chars "Generated " ++ benign_env.now),
               contentSlides := slides }, chars "/tmp/pres.pptx") :=
  (assembly_all_or_nothing benign_env stub_service (chars "T") wellformed_outline
    (chars "doc")).1 (chars "/tmp/pres.pptx") rfl

/-! ## C9: lemmas about the split scanner -/

theorem isPrefixOf_eq_true_iff {l₁ l₂ : List Char} :
    l₁.isPrefixOf l₂ = true ↔ l₁ <+: l₂ := List.isPrefixOf_iff_prefix

theorem infix_of_pref {s m : List Char} (h : s <+: m) : s <:+: m := by
  obtain ⟨w, hw⟩ := h
  exact ⟨[], w, by simpa using hw⟩

theorem infix_of_suff {s m : List Char} (h : s <:+ m) : s <:+: m := by
  obtain ⟨w, hw⟩ := h
  exact ⟨w, [], by simpa using hw⟩

theorem infix_iff_drop {s m : List Char} : s <:+: m ↔ ∃ i, s <+: m.drop i := by
  constructor
  · rintro ⟨u, v, huv⟩
    refine ⟨u.length, v, ?_⟩
    rw [← huv, List.append_assoc, List.drop_left]
  · rintro ⟨i, w, hw⟩
    refine ⟨m.take i, w, ?_⟩
    have hm : m = m.take i ++ (s ++ w) := by rw [hw, List.take_append_drop]
    rw [List.append_assoc]
    exact hm.symm

theorem pref_of_pref_append {s u v : List Char} (h : s <+: u ++ v)
    (hl : s.length ≤ u.length) : s <+: u := by
  have hs := List.prefix_iff_eq_take.mp h
  rw [List.take_append_eq_append_take, Nat.sub_eq_zero_of_le hl, List.take_zero,
    List.append_nil] at hs
  rw [hs]
  exact List.take_prefix _ _

theorem singleton_infix_iff {c : Char} {m : List Char} : [c] <:+: m ↔ c ∈ m := by
  constructor
  · intro h
    exact h.subset (by simp)
  · intro h
    obtain ⟨u, v, huv⟩ := List.append_of_mem h
    exact ⟨u, v, by rw [huv]; simp⟩

theorem isSubstr_iff_occurs {pat : List Char} :
    ∀ {s : List Char}, isSubstr pat s = true ↔ pat <:+: s := by
  intro s
  induction s with
  | nil =>
    show pat.isEmpty = true ↔ _
    rw [List.isEmpty_iff, List.infix_nil]
  | cons c s ih =>
    show (pat.isPrefixOf (c :: s) || isSubstr pat s) = true ↔ _
    rw [Bool.or_eq_true, isPrefixOf_eq_true_iff, ih, List.infix_cons_iff]

theorem splitScan_cons_pos {sep : List Char} {c : Char} {rest : List Char}
    (h : sep.isPrefixOf (c :: rest) = true) (acc : List Char) :
    splitScan sep (c :: rest) acc 0 =
      acc.reverse :: splitScan sep rest [] (sep.length - 1) := by
  rw [show splitScan sep (c :: rest) acc 0 =
      if sep.isPrefixOf (c :: rest) then
        acc.reverse :: splitScan sep rest [] (sep.length - 1)
      else splitScan sep rest (c :: acc) 0 from rfl]
  rw [if_pos h]

theorem splitScan_cons_neg {sep : List Char} {c : Char} {rest : List Char}
    (h : sep.isPrefixOf (c :: rest) = false) (acc : List Char) :
    splitScan sep (c :: rest) acc 0 = splitScan sep rest (c :: acc) 0 := by
  rw [show splitScan sep (c :: rest) acc 0 =
      if sep.isPrefixOf (c :: rest) then
        acc.reverse :: splitScan sep rest [] (sep.length - 1)
      else splitScan sep rest (c :: acc) 0 from rfl]
  rw [if_neg (by simp [h])]

theorem splitScan_ne_nil (sep : List Char) :
    ∀ (l acc : List Char) (skip : Nat), splitScan sep l acc skip ≠ [] := by
  intro l
  induction l with
  | nil => intro acc skip; simp [splitScan]
  | cons c rest ih =>
    intro acc skip
    cases skip with
    | succ k => exact ih acc k
    | zero =>
      by_cases h : sep.isPrefixOf (c :: rest)
      · simp [splitScan, h]
      · simpa [splitScan, h] using ih (c :: acc) 0

theorem splitScan_skip (sep : List Char) :
    ∀ (u v acc : List Char), splitScan sep (u ++ v) acc u.length = splitScan sep v acc 0 := by
  intro u
  induction u with
  | nil => intro v acc; rfl
  | cons c u ih => intro v acc; exact ih v acc

theorem splitScan_of_no_occ (sep : List Char) :
    ∀ (l acc : List Char), ¬ sep <:+: l → splitScan sep l acc 0 = [acc.reverse ++ l] := by
  intro l
  induction l with
  | nil => intro acc _; simp [splitScan]
  | cons c rest ih =>
    intro acc h
    have hpre : sep.isPrefixOf (c :: rest) = false := by
      cases hp : sep.isPrefixOf (c :: rest)
      · rfl
      · exact absurd (infix_of_pref (isPrefixOf_eq_true_iff.mp hp)) h
    rw [show splitScan sep (c :: rest) acc 0 = splitScan sep rest (c :: acc) 0 from by
      simp [splitScan, hpre]]
    rw [ih (c :: acc) (fun hin => h (List.infix_cons hin))]
    simp

theorem splitScan_append_sep (sep : List Char) (hne : sep ≠ []) :
    ∀ (a b acc : List Char), ¬ sep <:+: (a ++ sep.dropLast) →
      splitScan sep (a ++ sep ++ b) acc 0 = (acc.reverse ++ a) :: splitScan sep b [] 0 := by
  intro a
  induction a with
  | nil =>
    intro b acc _
    simp only [List.nil_append, List.append_nil]
    cases sep with
    | nil => exact absurd rfl hne
    | cons s0 sep' =>
      have hpre : (s0 :: sep').isPrefixOf (s0 :: (sep' ++ b)) = true := by
        rw [← List.cons_append]
        exact isPrefixOf_eq_true_iff.mpr (List.prefix_append _ _)
      rw [List.cons_append]
      rw [show splitScan (s0 :: sep') (s0 :: (sep' ++ b)) acc 0 =
          acc.reverse :: splitScan (s0 :: sep') (sep' ++ b) [] ((s0 :: sep').length - 1) from by
        simp [splitScan, hpre]]
      rw [show (s0 :: sep').length - 1 = sep'.length from by simp]
      rw [splitScan_skip]
  | cons x a ih =>
    intro b acc h
    have h1 : 0 < sep.length := List.length_pos.mpr hne
    have hsplit := List.dropLast_append_getLast hne
    have hpre : sep.isPrefixOf (x :: (a ++ sep ++ b)) = false := by
      cases hp : sep.isPrefixOf (x :: (a ++ sep ++ b))
      · rfl
      · exfalso
        apply h
        have hp' := isPrefixOf_eq_true_iff.mp hp
        have hm : x :: (a ++ sep ++ b) =
            ((x :: a) ++ sep.dropLast) ++ (sep.getLast hne :: b) := by
          conv_lhs => rw [show sep = sep.dropLast ++ [sep.getLast hne] from hsplit.symm]
          simp [List.append_assoc]
        rw [hm] at hp'
        have hlen : sep.length ≤ ((x :: a) ++ sep.dropLast).length := by
          rw [List.length_append, List.length_cons, List.length_dropLast]
          omega
        exact infix_of_pref (pref_of_pref_append hp' hlen)
    rw [show (x :: a) ++ sep ++ b = x :: (a ++ sep ++ b) from by simp]
    rw [splitScan_cons_neg hpre acc]
    rw [ih b (x :: acc) (fun hin => h (by
      rw [show (x :: a) ++ sep.dropLast = x :: (a ++ sep.dropLast) from by simp]
      exact List.infix_cons hin))]
    simp [List.reverse_cons, List.append_assoc]

theorem joinSep_cons (sep x : List Char) {cs : List (List Char)} (h : cs ≠ []) :
    joinSep sep (x :: cs) = x ++ sep ++ joinSep sep cs := by
  cases cs with
  | nil => exact absurd rfl h
  | cons y cs' => rfl

theorem joinSep_splitScan (sep : List Char) (hne : sep ≠ []) :
    ∀ (n : Nat) (l acc : List Char), l.length ≤ n →
      joinSep sep (splitScan sep l acc 0) = acc.reverse ++ l := by
  intro n
  induction n with
  | zero =>
    intro l acc hl
    have h0 : l = [] := List.length_eq_zero.mp (Nat.le_zero.mp hl)
    subst h0
    simp [splitScan, joinSep]
  | succ n ih =>
    intro l acc hl
    cases l with
    | nil => simp [splitScan, joinSep]
    | cons c rest =>
      cases hp : sep.isPrefixOf (c :: rest) with
      | false =>
        rw [splitScan_cons_neg hp acc]
        rw [ih rest (c :: acc) (by simp at hl; omega)]
        simp
      | true =>
        rw [splitScan_cons_pos hp acc]
        obtain ⟨w, hw⟩ := isPrefixOf_eq_true_iff.mp hp
        cases sep with
        | nil => exact absurd rfl hne
        | cons s0 sep' =>
          injection hw with hc0 hw2
          have hlw : w.length ≤ n := by
            have h2 := congrArg List.length hw2
            simp at h2 hl
            omega
          rw [show (s0 :: sep').length - 1 = sep'.length from by simp]
          rw [show splitScan (s0 :: sep') rest [] sep'.length =
              splitScan (s0 :: sep') w [] 0 from by
            rw [← hw2]; exact splitScan_skip _ _ _ _]
          rw [joinSep_cons _ _ (splitScan_ne_nil _ _ _ _)]
          rw [ih w [] hlw]
          simp only [List.reverse_nil, List.nil_append]
          rw [List.append_assoc]
          rw [show (s0 :: sep') ++ w = c :: rest from by
            rw [List.cons_append, hc0]
            exact congrArg (c :: ·) hw2]

theorem joinSep_pySplit (sep : List Char) (hne : sep ≠ []) (l : List Char) :
    joinSep sep (pySplit sep l) = l := by
  simpa [pySplit] using joinSep_splitScan sep hne l.length l [] le_rfl

theorem mem_joinSep_occ (sep : List Char) :
    ∀ (cs : List (List Char)) (x : List Char), x ∈ cs → x <:+: joinSep sep cs := by
  intro cs
  induction cs with
  | nil => intro x hx; simp at hx
  | cons y cs ih =>
    intro x hx
    rcases List.mem_cons.mp hx with h | h
    · subst h
      cases cs with
      | nil => exact List.infix_refl x
      | cons z cs' =>
        rw [joinSep_cons sep x (by simp)]
        exact infix_of_pref (by rw [List.append_assoc]; exact List.prefix_append _ _)
    · cases cs with
      | nil => simp at h
      | cons z cs' =>
        rw [joinSep_cons sep y (by simp)]
        refine (ih x h).trans (infix_of_suff ⟨y ++ sep, ?_⟩)
        rw [List.append_assoc]

theorem chunk_occ (sep : List Char) (hne : sep ≠ []) {l chunk : List Char}
    (hc : chunk ∈ pySplit sep l) : chunk <:+: l := by
  have h1 := mem_joinSep_occ sep (pySplit sep l) chunk hc
  rwa [joinSep_pySplit sep hne] at h1

theorem not_infix_acc_reverse {sep : List Char} (hne : sep ≠ []) {acc l : List Char}
    (hinv : ∀ i, i < acc.length → ¬ sep <+: (acc.reverse ++ l).drop i) :
    ¬ sep <:+: acc.reverse := by
  intro hinf
  obtain ⟨i, hpref⟩ := infix_iff_drop.mp hinf
  have hi : i < acc.length := by
    by_contra hge
    push_neg at hge
    rw [List.drop_eq_nil_of_le (by rw [List.length_reverse]; exact hge)] at hpref
    exact hne (List.prefix_nil.mp hpref)
  apply hinv i hi
  rw [List.drop_append_eq_append_drop,
      Nat.sub_eq_zero_of_le (by rw [List.length_reverse]; omega), List.drop_zero]
  exact hpref.trans (List.prefix_append _ _)

theorem splitScan_chunks_no_occ (sep : List Char) (hne : sep ≠ []) :
    ∀ (n : Nat) (l acc : List Char), l.length ≤ n →
      (∀ i, i < acc.length → ¬ sep <+: (acc.reverse ++ l).drop i) →
      ∀ chunk ∈ splitScan sep l acc 0, ¬ sep <:+: chunk := by
  intro n
  induction n with
  | zero =>
    intro l acc hl hinv chunk hc
    have hl0 : l = [] := List.length_eq_zero.mp (Nat.le_zero.mp hl)
    subst hl0
    simp [splitScan] at hc
    subst hc
    exact not_infix_acc_reverse hne hinv
  | succ n ih =>
    intro l acc hl hinv chunk hc
    cases l with
    | nil =>
      simp [splitScan] at hc
      subst hc
      exact not_infix_acc_reverse hne hinv
    | cons c rest =>
      cases hp : sep.isPrefixOf (c :: rest) with
      | true =>
        rw [splitScan_cons_pos hp acc] at hc
        rcases List.mem_cons.mp hc with h | h
        · subst h
          exact not_infix_acc_reverse hne hinv
        · obtain ⟨w, hw⟩ := isPrefixOf_eq_true_iff.mp hp
          cases sep with
          | nil => exact absurd rfl hne
          | cons s0 sep' =>
            injection hw with hc0 hw2
            rw [show (s0 :: sep').length - 1 = sep'.length from by simp] at h
            rw [show splitScan (s0 :: sep') rest [] sep'.length =
                splitScan (s0 :: sep') w [] 0 from by
              rw [← hw2]; exact splitScan_skip _ _ _ _] at h
            refine ih w [] ?_ (by intro i hi; simp at hi) chunk h
            have h2 := congrArg List.length hw2
            simp at h2 hl
            omega
      | false =>
        rw [splitScan_cons_neg hp acc] at hc
        refine ih rest (c :: acc) (by simp at hl; omega) ?_ chunk hc
        intro i hi
        rw [List.reverse_cons, List.append_assoc]
        simp only [List.singleton_append]
        by_cases hic : i < acc.length
        · exact hinv i hic
        · have hieq : i = acc.length := by simp at hi; omega
          subst hieq
          rw [List.drop_append_eq_append_drop,
              List.drop_eq_nil_of_le (le_of_eq (List.length_reverse acc)),
              List.length_reverse, Nat.sub_self, List.drop_zero, List.nil_append]
          intro hpref
          have hx := isPrefixOf_eq_true_iff.mpr hpref
          rw [hp] at hx
          exact Bool.noConfusion hx

/-! ## C9: the parser's titles are clean -/

theorem head_dropWhile_false (p : Char → Bool) :
    ∀ (l : List Char) {c : Char}, (l.dropWhile p).head? = some c → p c = false := by
  intro l
  induction l with
  | nil => intro c hc; simp [List.dropWhile] at hc
  | cons a l ih =>
    intro c hc
    cases ha : p a with
    | true =>
      rw [List.dropWhile_cons, if_pos (by simp [ha])] at hc
      exact ih hc
    | false =>
      rw [List.dropWhile_cons, if_neg (by simp [ha])] at hc
      simp at hc
      rw [← hc]
      exact ha

theorem stripWhile_head_false (p : Char → Bool) (s : List Char) {c : Char}
    (hc : (stripWhile p s).head? = some c) : p c = false := by
  unfold stripWhile at hc
  rw [List.head?_reverse] at hc
  have hXne : List.dropWhile p (List.dropWhile p s).reverse ≠ [] := by
    intro h0
    rw [h0] at hc
    simp at hc
  obtain ⟨w, hw⟩ :=
    (List.dropWhile_suffix p : _ <:+ (List.dropWhile p s).reverse)
  have hgl : (List.dropWhile p s).reverse.getLast? = some c := by
    rw [← hw, List.getLast?_append, hc]
    rfl
  rw [List.getLast?_reverse] at hgl
  exact head_dropWhile_false p s hgl

theorem stripWhile_getLast_false (p : Char → Bool) (s : List Char) {c : Char}
    (hc : (stripWhile p s).getLast? = some c) : p c = false := by
  unfold stripWhile at hc
  rw [List.getLast?_reverse] at hc
  exact head_dropWhile_false p _ hc

theorem stripWhile_occ (p : Char → Bool) (s : List Char) : stripWhile p s <:+: s := by
  unfold stripWhile
  have h1 : List.dropWhile p s <:+ s := List.dropWhile_suffix p
  have h2 : List.dropWhile p (List.dropWhile p s).reverse <:+ (List.dropWhile p s).reverse :=
    List.dropWhile_suffix p
  have h3 := ( List.reverse_prefix).mpr h2
  rw [List.reverse_reverse] at h3
  exact (infix_of_pref h3).trans (infix_of_suff h1)

theorem cleanTitle_intro {t : List Char}
    (h1 : isSubstr (chars " - ") t = false) (h2 : isSubstr (chars ": ") t = false)
    (h3 : isSubstr (chars "\n") t = false)
    (h4 : ∀ c, t.head? = some c → isBracket c = false)
    (h5 : ∀ c, t.getLast? = some c → isBracket c = false) :
    cleanTitle t = true := by
  unfold cleanTitle
  rw [h1, h2, h3]
  simp only [Bool.not_false, Bool.true_and]
  rw [Bool.and_eq_true]
  constructor
  · cases hh : t.head? with
    | none => rfl
    | some c =>
      show (!(isBracket c)) = true
      rw [h4 c hh]
      rfl
  · cases hl : t.getLast? with
    | none => rfl
    | some c =>
      show (!(isBracket c)) = true
      rw [h5 c hl]
      rfl

theorem clean_of_parsed {line p0 p1 : List Char} {ps : List (List Char)} {seg : List Char}
    (hnl : ¬ (chars "\n") <:+: line)
    (hsp : pySplit (chars " - ") line = p0 :: p1 :: ps)
    (hseg : seg ∈ pySplit (chars ": ") p0) :
    cleanTitle (pyStripChars (chars "[]") seg) = true := by
  have hp0mem : p0 ∈ pySplit (chars " - ") line := by
    rw [hsp]; exact List.mem_cons_self _ _
  have hp0occ : p0 <:+: line := chunk_occ _ (by decide) hp0mem
  have hnd : ¬ (chars " - ") <:+: p0 :=
    splitScan_chunks_no_occ (chars " - ") (by decide) line.length line []
      le_rfl (by intro i hi; simp at hi) p0 hp0mem
  have hsegocc : seg <:+: p0 := chunk_occ _ (by decide) hseg
  have hnc : ¬ (chars ": ") <:+: seg :=
    splitScan_chunks_no_occ (chars ": ") (by decide) p0.length p0 []
      le_rfl (by intro i hi; simp at hi) seg hseg
  have htocc : pyStripChars (chars "[]") seg <:+: seg := stripWhile_occ _ seg
  apply cleanTitle_intro
  · cases hq : isSubstr (chars " - ") (pyStripChars (chars "[]") seg) with
    | false => rfl
    | true =>
      exact absurd ((isSubstr_iff_occurs.mp hq).trans (htocc.trans hsegocc)) hnd
  · cases hq : isSubstr (chars ": ") (pyStripChars (chars "[]") seg) with
    | false => rfl
    | true => exact absurd ((isSubstr_iff_occurs.mp hq).trans htocc) hnc
  · cases hq : isSubstr (chars "\n") (pyStripChars (chars "[]") seg) with
    | false => rfl
    | true =>
      exact absurd
        ((isSubstr_iff_occurs.mp hq).trans ((htocc.trans hsegocc).trans hp0occ)) hnl
  · intro c hc
    exact stripWhile_head_false _ seg hc
  · intro c hc
    exact stripWhile_getLast_false _ seg hc

theorem parse_lines_titles_clean :
    ∀ (lines ts : List (List Char)),
      (∀ line ∈ lines, ¬ (chars "\n") <:+: line) →
      parse_lines lines = .ok ts →
      ∀ t ∈ ts, cleanTitle t = true := by
  intro lines
  induction lines with
  | nil =>
    intro ts _ h t ht
    simp only [parse_lines] at h
    injection h with h2
    subst h2
    simp at ht
  | cons line rest ih =>
    intro ts hnl h t ht
    have hnl_rest := fun l hl => hnl l (List.mem_cons_of_mem _ hl)
    cases hsw : pyStartsWith (chars "Slide") line with
    | false =>
      rw [show parse_lines (line :: rest) = parse_lines rest from by
        simp [parse_lines, hsw]] at h
      exact ih ts hnl_rest h t ht
    | true =>
      cases hsp : pySplit (chars " - ") line with
      | nil =>
        rw [show parse_lines (line :: rest) = parse_lines rest from by
          simp [parse_lines, hsw, hsp]] at h
        exact ih ts hnl_rest h t ht
      | cons p0 tail =>
        cases tail with
        | nil =>
          rw [show parse_lines (line :: rest) = parse_lines rest from by
            simp [parse_lines, hsw, hsp]] at h
          exact ih ts hnl_rest h t ht
        | cons p1 ps =>
          cases hseg : (pySplit (chars ": ") p0).get? 1 with
          | none =>
            have hseg2 : (pySplit (chars ": ") p0)[1]? = none := by
              rw [← List.get?_eq_getElem?]; exact hseg
            rw [show parse_lines (line :: rest) =
                .error (chars "IndexError: list index out of range") from by
              simp [parse_lines, hsw, hsp, hseg, hseg2]] at h
            exact Except.noConfusion h
          | some seg =>
            have hseg2 : (pySplit (chars ": ") p0)[1]? = some seg := by
              rw [← List.get?_eq_getElem?]; exact hseg
            cases hrec : parse_lines rest with
            | error e =>
              rw [show parse_lines (line :: rest) = .error e from by
                simp [parse_lines, hsw, hsp, hseg, hseg2, hrec]] at h
              exact Except.noConfusion h
            | ok ts' =>
              rw [show parse_lines (line :: rest) =
                  .ok (pyStripChars (chars "[]") seg :: ts') from by
                simp [parse_lines, hsw, hsp, hseg, hseg2, hrec]] at h
              injection h with h2
              subst h2
              rcases List.mem_cons.mp ht with hteq | htmem
              · subst hteq
                exact clean_of_parsed (hnl line (List.mem_cons_self _ _)) hsp
                  (List.get?_mem hseg)
              · exact ih ts' hnl_rest hrec t htmem

theorem parse_slide_structure_clean {s : List Char} {ts : List (List Char)}
    (h : parse_slide_structure s = .ok ts) : ∀ t ∈ ts, cleanTitle t = true := by
  apply parse_lines_titles_clean (pySplit (chars "\n") s) ts ?_ h
  intro line hline
  exact splitScan_chunks_no_occ (chars "\n") (by decide) s.length s [] le_rfl
    (by intro i hi; simp at hi) line hline

/-! ## C9: digits and append decompositions -/

theorem cleanTitle_elim {t : List Char} (h : cleanTitle t = true) :
    isSubstr (chars " - ") t = false ∧ isSubstr (chars ": ") t = false ∧
      isSubstr (chars "\n") t = false := by
  unfold cleanTitle at h
  simp only [Bool.and_eq_true, Bool.not_eq_true'] at h
  exact ⟨h.1.1.1.1, h.1.1.1.2, h.1.1.2⟩

theorem digitChar_mem (d : Nat) : digitChar d ∈ chars "0123456789" := by
  unfold digitChar
  have hk : d % 10 < 10 := Nat.mod_lt d (by norm_num)
  set k := d % 10 with hkdef
  interval_cases k <;> decide

theorem natCharsAux_mem :
    ∀ (fuel n : Nat) {c : Char}, c ∈ natCharsAux fuel n → c ∈ chars "0123456789" := by
  intro fuel
  induction fuel with
  | zero => intro n c hc; simp [natCharsAux] at hc
  | succ fuel ih =>
    intro n c hc
    simp only [natCharsAux] at hc
    by_cases h : n < 10
    · rw [if_pos h] at hc
      simp at hc
      subst hc
      exact digitChar_mem n
    · rw [if_neg h] at hc
      rcases List.mem_append.mp hc with h1 | h1
      · exact ih _ h1
      · simp at h1
        subst h1
        exact digitChar_mem _

theorem natChars_mem {n : Nat} {c : Char} (hc : c ∈ natChars n) :
    c ∈ chars "0123456789" :=
  natCharsAux_mem _ _ hc

theorem natChars_ne_nil (n : Nat) : natChars n ≠ [] := by
  show natCharsAux (n + 1) n ≠ []
  simp only [natCharsAux]
  by_cases h : n < 10
  · rw [if_pos h]; simp
  · rw [if_neg h]; simp

theorem infix_append_split {s x y : List Char} (h : s <:+: x ++ y) :
    s <:+: x ∨ s <:+: y ∨
      ∃ s1 s2, s = s1 ++ s2 ∧ s1 ≠ [] ∧ s2 ≠ [] ∧ s1 <:+ x ∧ s2 <+: y := by
  obtain ⟨u, v, huv⟩ := h
  by_cases h1 : u.length + s.length ≤ x.length
  · left
    have hd : (x ++ y).drop u.length = s ++ v := by
      rw [← huv, List.append_assoc, List.drop_left]
    have hd2 : x.drop u.length ++ y = s ++ v := by
      rw [← hd, List.drop_append_eq_append_drop,
          Nat.sub_eq_zero_of_le (by omega), List.drop_zero]
    have hp : s <+: x.drop u.length :=
      pref_of_pref_append ⟨v, hd2.symm⟩ (by rw [List.length_drop]; omega)
    exact infix_iff_drop.mpr ⟨u.length, hp⟩
  · by_cases h2 : x.length ≤ u.length
    · right; left
      have hd : (x ++ y).drop u.length = s ++ v := by
        rw [← huv, List.append_assoc, List.drop_left]
      have h3 : (x ++ y).drop u.length = y.drop (u.length - x.length) := by
        rw [List.drop_append_eq_append_drop, List.drop_eq_nil_of_le h2, List.nil_append]
      exact infix_iff_drop.mpr ⟨u.length - x.length, ⟨v, (h3.symm.trans hd).symm⟩⟩
    · right; right
      push_neg at h1 h2
      refine ⟨s.take (x.length - u.length), s.drop (x.length - u.length),
        (List.take_append_drop _ _).symm, ?_, ?_, ?_, ?_⟩
      · apply List.length_pos.mp
        rw [List.length_take, Nat.lt_min]
        exact ⟨by omega, by omega⟩
      · apply List.length_pos.mp
        rw [List.length_drop]
        omega
      · refine ⟨u, ?_⟩
        have hx : x = u ++ s.take (x.length - u.length) := by
          calc x = (x ++ y).take x.length := (List.take_left x y).symm
          _ = (u ++ (s ++ v)).take x.length := by rw [← huv, List.append_assoc]
          _ = u ++ (s ++ v).take (x.length - u.length) := by
              rw [List.take_append_eq_append_take, List.take_of_length_le (le_of_lt h2)]
          _ = u ++ s.take (x.length - u.length) := by
              rw [List.take_append_eq_append_take,
                  show x.length - u.length - s.length = 0 from by omega,
                  List.take_zero, List.append_nil]
        exact hx.symm
      · refine ⟨v, ?_⟩
        have hy : y = s.drop (x.length - u.length) ++ v := by
          calc y = (x ++ y).drop x.length := (List.drop_left x y).symm
          _ = (u ++ (s ++ v)).drop x.length := by rw [← huv, List.append_assoc]
          _ = (s ++ v).drop (x.length - u.length) := by
              rw [List.drop_append_eq_append_drop, List.drop_eq_nil_of_le (le_of_lt h2),
                  List.nil_append]
          _ = s.drop (x.length - u.length) ++ v := by
              rw [List.drop_append_eq_append_drop,
                  show x.length - u.length - s.length = 0 from by omega,
                  List.drop_zero]
        exact hy.symm

theorem sep_dash_split {s1 s2 : List Char} (h : chars " - " = s1 ++ s2)
    (h1 : s1 ≠ []) (h2 : s2 ≠ []) :
    (s1 = [' '] ∧ s2 = chars "- ") ∨ (s1 = chars " -" ∧ s2 = [' ']) := by
  rw [show (chars " - " : List Char) = [' ', '-', ' '] from rfl] at h
  cases s1 with
  | nil => exact absurd rfl h1
  | cons a s1' =>
    cases s1' with
    | nil =>
      have h' : [' ', '-', ' '] = a :: s2 := h
      injection h' with ha hs
      left
      refine ⟨by rw [← ha], hs.symm⟩
    | cons b s1'' =>
      cases s1'' with
      | nil =>
        have h' : [' ', '-', ' '] = a :: b :: s2 := h
        injection h' with ha h''
        injection h'' with hb hs
        right
        refine ⟨?_, hs.symm⟩
        rw [← ha, ← hb]
        decide
      | cons e s1''' =>
        exfalso
        apply h2
        have hl := congrArg List.length h
        simp only [List.length_append, List.length_cons, List.length_nil] at hl
        exact List.length_eq_zero.mp (by omega)

theorem sep_colon_split {s1 s2 : List Char} (h : chars ": " = s1 ++ s2)
    (h1 : s1 ≠ []) (h2 : s2 ≠ []) : s1 = [':'] ∧ s2 = [' '] := by
  rw [show (chars ": " : List Char) = [':', ' '] from rfl] at h
  cases s1 with
  | nil => exact absurd rfl h1
  | cons a s1' =>
    cases s1' with
    | nil =>
      have h' : [':', ' '] = a :: s2 := h
      injection h' with ha hs
      exact ⟨by rw [← ha], hs.symm⟩
    | cons b s1'' =>
      exfalso
      apply h2
      have hl := congrArg List.length h
      simp only [List.length_append, List.length_cons, List.length_nil] at hl
      exact List.length_eq_zero.mp (by omega)

theorem getLast?_of_suffix {s m : List Char} (h : s <:+ m) (hs : s ≠ []) :
    m.getLast? = s.getLast? := by
  obtain ⟨w, hw⟩ := h
  rw [← hw, List.getLast?_append]
  cases hgl : s.getLast? with
  | none => exact absurd (List.getLast?_eq_none_iff.mp hgl) hs
  | some c => rfl

theorem head?_of_pref {s m : List Char} (h : s <+: m) {c : Char}
    (hc : s.head? = some c) : m.head? = some c := by
  obtain ⟨w, hw⟩ := h
  rw [← hw, List.head?_append, hc]
  rfl

theorem mem_of_getLast?_eq : ∀ {l : List Char} {c : Char}, l.getLast? = some c → c ∈ l := by
  intro l
  induction l with
  | nil => intro c hc; simp at hc
  | cons a l ih =>
    intro c hc
    cases l with
    | nil =>
      simp at hc
      simp [hc]
    | cons b l' =>
      rw [List.getLast?_cons_cons] at hc
      exact List.mem_cons_of_mem _ (ih hc)

theorem not_dash_sep_occ (n : Nat) {t : List Char} (ht : cleanTitle t = true) :
    ¬ (chars " - ") <:+:
      ((chars "Slide " ++ natChars n ++ chars ": [" ++ t ++ chars "]") ++ chars " -") := by
  intro hinf
  have hform :
      (chars "Slide " ++ natChars n ++ chars ": [" ++ t ++ chars "]") ++ chars " -" =
        chars "Slide " ++ (natChars n ++ (chars ": [" ++ (t ++ chars "] -"))) := by
    simp only [List.append_assoc]
    rw [show (chars "]" ++ chars " -" : List Char) = chars "] -" from by decide]
  rw [hform] at hinf
  rcases infix_append_split hinf with h | h | ⟨s1, s2, hsep, hs1, hs2, hsfx, hpfx⟩
  · exact (by decide : ¬ (chars " - ") <:+: chars "Slide ") h
  · rcases infix_append_split h with h' | h' | ⟨s1, s2, hsep, hs1, hs2, hsfx, hpfx⟩
    · have hmem : ' ' ∈ natChars n := h'.subset (by decide)
      exact absurd (natChars_mem hmem) (by decide)
    · rcases infix_append_split h' with h2 | h2 | ⟨s1, s2, hsep, hs1, hs2, hsfx, hpfx⟩
      · exact (by decide : ¬ (chars " - ") <:+: chars ": [") h2
      · rcases infix_append_split h2 with h3 | h3 | ⟨s1, s2, hsep, hs1, hs2, hsfx, hpfx⟩
        · have hq := isSubstr_iff_occurs.mpr h3
          rw [(cleanTitle_elim ht).1] at hq
          exact Bool.noConfusion hq
        · exact (by decide : ¬ (chars " - ") <:+: chars "] -") h3
        · rcases sep_dash_split hsep hs1 hs2 with ⟨hA, hB⟩ | ⟨hA, hB⟩
          · subst hB
            exact absurd (head?_of_pref hpfx rfl) (by decide)
          · subst hB
            exact absurd (head?_of_pref hpfx rfl) (by decide)
      · rcases sep_dash_split hsep hs1 hs2 with ⟨hA, hB⟩ | ⟨hA, hB⟩
        · subst hA
          exact absurd (getLast?_of_suffix hsfx (by decide)) (by decide)
        · subst hA
          exact absurd (getLast?_of_suffix hsfx (by decide)) (by decide)
    · rcases sep_dash_split hsep hs1 hs2 with ⟨hA, hB⟩ | ⟨hA, hB⟩
      · subst hA
        have hgl := getLast?_of_suffix hsfx (by decide)
        have hmem : ' ' ∈ natChars n := mem_of_getLast?_eq (by rw [hgl]; rfl)
        exact absurd (natChars_mem hmem) (by decide)
      · subst hA
        have hgl := getLast?_of_suffix hsfx (by decide)
        have hmem : '-' ∈ natChars n := mem_of_getLast?_eq (by rw [hgl]; rfl)
        exact absurd (natChars_mem hmem) (by decide)
  · rcases sep_dash_split hsep hs1 hs2 with ⟨hA, hB⟩ | ⟨hA, hB⟩
    · subst hB
      have hh := head?_of_pref hpfx (rfl : (chars "- ").head? = some '-')
      rw [List.head?_append] at hh
      cases hd : (natChars n).head? with
      | none => exact absurd (List.head?_eq_none_iff.mp hd) (natChars_ne_nil n)
      | some c =>
        rw [hd] at hh
        have hc : c = '-' := by simpa using hh
        subst hc
        have hmem : '-' ∈ natChars n := List.mem_of_mem_head? hd
        exact absurd (natChars_mem hmem) (by decide)
    · subst hA
      exact absurd (getLast?_of_suffix hsfx (by decide)) (by decide)

theorem not_colon_sep_infix_left (n : Nat) :
    ¬ (chars ": ") <:+: ((chars "Slide " ++ natChars n) ++ chars ":") := by
  intro hinf
  rw [List.append_assoc] at hinf
  rcases infix_append_split hinf with h | h | ⟨s1, s2, hsep, hs1, hs2, hsfx, hpfx⟩
  · exact (by decide : ¬ (chars ": ") <:+: chars "Slide ") h
  · rcases infix_append_split h with h' | h' | ⟨s1, s2, hsep, hs1, hs2, hsfx, hpfx⟩
    · have hmem : ':' ∈ natChars n := h'.subset (by decide)
      exact absurd (natChars_mem hmem) (by decide)
    · exact (by decide : ¬ (chars ": ") <:+: chars ":") h'
    · obtain ⟨hA, hB⟩ := sep_colon_split hsep hs1 hs2
      subst hA
      have hgl := getLast?_of_suffix hsfx (by decide)
      have hmem : ':' ∈ natChars n := mem_of_getLast?_eq (by rw [hgl]; rfl)
      exact absurd (natChars_mem hmem) (by decide)
  · obtain ⟨hA, hB⟩ := sep_colon_split hsep hs1 hs2
    subst hA
    exact absurd (getLast?_of_suffix hsfx (by decide)) (by decide)

theorem not_colon_sep_infix_bracket {t : List Char} (ht : cleanTitle t = true) :
    ¬ (chars ": ") <:+: (chars "[" ++ (t ++ chars "]")) := by
  intro hinf
  rcases infix_append_split hinf with h | h | ⟨s1, s2, hsep, hs1, hs2, hsfx, hpfx⟩
  · exact (by decide : ¬ (chars ": ") <:+: chars "[") h
  · rcases infix_append_split h with h' | h' | ⟨s1, s2, hsep, hs1, hs2, hsfx, hpfx⟩
    · have hq := isSubstr_iff_occurs.mpr h'
      rw [(cleanTitle_elim ht).2.1] at hq
      exact Bool.noConfusion hq
    · exact (by decide : ¬ (chars ": ") <:+: chars "]") h'
    · obtain ⟨hA, hB⟩ := sep_colon_split hsep hs1 hs2
      subst hB
      exact absurd (head?_of_pref hpfx rfl) (by decide)
  · obtain ⟨hA, hB⟩ := sep_colon_split hsep hs1 hs2
    subst hA
    exact absurd (getLast?_of_suffix hsfx (by decide)) (by decide)

/-! ## C9: round trip of one re-serialized line -/

theorem cleanTitle_head {t : List Char} (h : cleanTitle t = true) {c : Char}
    (hc : t.head? = some c) : isBracket c = false := by
  unfold cleanTitle at h
  simp only [Bool.and_eq_true] at h
  have h4 := h.1.2
  rw [hc] at h4
  simpa using h4

theorem cleanTitle_getLast {t : List Char} (h : cleanTitle t = true) {c : Char}
    (hc : t.getLast? = some c) : isBracket c = false := by
  unfold cleanTitle at h
  simp only [Bool.and_eq_true] at h
  have h5 := h.2
  rw [hc] at h5
  simpa using h5

theorem dropWhile_cons_of_pos {p : Char → Bool} {c : Char} (l : List Char)
    (h : p c = true) : List.dropWhile p (c :: l) = List.dropWhile p l := by
  rw [List.dropWhile_cons, if_pos h]

theorem dropWhile_cons_of_neg {p : Char → Bool} {c : Char} (l : List Char)
    (h : p c = false) : List.dropWhile p (c :: l) = c :: l := by
  rw [List.dropWhile_cons, if_neg (by simp [h])]

theorem strip_brackets_clean {t : List Char} (ht : cleanTitle t = true) :
    pyStripChars (chars "[]") (chars "[" ++ (t ++ chars "]")) = t := by
  show stripWhile (fun c => (chars "[]").contains c) ('[' :: (t ++ [']'])) = t
  unfold stripWhile
  rw [dropWhile_cons_of_pos _ (by decide)]
  cases t with
  | nil => decide
  | cons c t' =>
    have hc : (fun c => (chars "[]").contains c) c = false := cleanTitle_head ht rfl
    rw [show ((c :: t') ++ [']'] : List Char) = c :: (t' ++ [']']) from rfl]
    rw [dropWhile_cons_of_neg _ hc]
    rw [show (c :: (t' ++ [']'])).reverse = ']' :: (t'.reverse ++ [c]) from by simp]
    rw [dropWhile_cons_of_pos _ (by decide)]
    have hstop : List.dropWhile (fun c => (chars "[]").contains c) (t'.reverse ++ [c]) =
        t'.reverse ++ [c] := by
      cases hrev : t'.reverse with
      | nil =>
        rw [List.nil_append]
        exact dropWhile_cons_of_neg _ hc
      | cons d w =>
        rw [List.cons_append]
        apply dropWhile_cons_of_neg
        have hgl : t'.getLast? = some d := by
          rw [← List.head?_reverse, hrev]
          rfl
        have hglc : (c :: t').getLast? = some d := by
          rw [show (c :: t') = [c] ++ t' from rfl, List.getLast?_append, hgl]
          rfl
        exact cleanTitle_getLast ht hglc
    rw [hstop]
    simp

theorem parse_reserialize_line (n : Nat) {t : List Char} (ht : cleanTitle t = true)
    (rest : List (List Char)) :
    parse_lines (reserialize_line n t :: rest) =
      match parse_lines rest with
      | .ok ts => .ok (t :: ts)
      | .error e => .error e := by
  have hsw : pyStartsWith (chars "Slide") (reserialize_line n t) = true := by
    apply isPrefixOf_eq_true_iff.mpr
    show chars "Slide" <+: reserialize_line n t
    unfold reserialize_line
    rw [show (chars "Slide " : List Char) = chars "Slide" ++ [' '] from rfl]
    simp only [List.append_assoc]
    exact List.prefix_append _ _
  have hA : reserialize_line n t =
      (chars "Slide " ++ natChars n ++ chars ": [" ++ t ++ chars "]") ++ chars " - " ++
        chars "content" := by
    unfold reserialize_line
    rw [show (chars "] - content" : List Char) =
        chars "]" ++ (chars " - " ++ chars "content") from by decide]
    simp [List.append_assoc]
  have hsplit : pySplit (chars " - ") (reserialize_line n t) =
      [chars "Slide " ++ natChars n ++ chars ": [" ++ t ++ chars "]", chars "content"] := by
    rw [hA]
    show splitScan (chars " - ") _ [] 0 = _
    rw [splitScan_append_sep (chars " - ") (by decide) _ _ []
      (by rw [show (chars " - ").dropLast = chars " -" from by decide]
          exact not_dash_sep_occ n ht)]
    rw [show splitScan (chars " - ") (chars "content") [] 0 = [chars "content"] from by decide]
    simp
  have hB : chars "Slide " ++ natChars n ++ chars ": [" ++ t ++ chars "]" =
      (chars "Slide " ++ natChars n) ++ chars ": " ++ (chars "[" ++ (t ++ chars "]")) := by
    rw [show (chars ": [" : List Char) = chars ": " ++ chars "[" from by decide]
    simp [List.append_assoc]
  have hsplit2 : pySplit (chars ": ")
      (chars "Slide " ++ natChars n ++ chars ": [" ++ t ++ chars "]") =
      [chars "Slide " ++ natChars n, chars "[" ++ (t ++ chars "]")] := by
    rw [hB]
    show splitScan (chars ": ") _ [] 0 = _
    rw [splitScan_append_sep (chars ": ") (by decide) _ _ []
      (by rw [show (chars ": ").dropLast = chars ":" from by decide]
          exact not_colon_sep_infix_left n)]
    rw [splitScan_of_no_occ (chars ": ") _ [] (not_colon_sep_infix_bracket ht)]
    simp
  have hseg2 : (pySplit (chars ": ")
      (chars "Slide " ++ natChars n ++ chars ": [" ++ t ++ chars "]"))[1]? =
      some (chars "[" ++ (t ++ chars "]")) := by
    rw [hsplit2]
    rfl
  have hseg3 : (pySplit (chars ": ")
      (chars "Slide " ++ (natChars n ++ (chars ": [" ++ (t ++ chars "]")))))[1]? =
      some (chars "[" ++ (t ++ chars "]")) := by
    rw [show chars "Slide " ++ (natChars n ++ (chars ": [" ++ (t ++ chars "]"))) =
        chars "Slide " ++ natChars n ++ chars ": [" ++ t ++ chars "]" from by
      simp [List.append_assoc]]
    exact hseg2
  cases hrec : parse_lines rest with
  | ok ts => simp [parse_lines, hsw, hsplit, hseg2, hseg3, hrec, strip_brackets_clean ht]
  | error e => simp [parse_lines, hsw, hsplit, hseg2, hseg3, hrec]

theorem newline_not_in_reserialize_line (n : Nat) {t : List Char}
    (ht : cleanTitle t = true) : ¬ (chars "\n") <:+: reserialize_line n t := by
  intro hinf
  have hmem : '\n' ∈ reserialize_line n t :=
    singleton_infix_iff.mp (hinf : (['\n'] : List Char) <:+: reserialize_line n t)
  unfold reserialize_line at hmem
  simp only [List.mem_append] at hmem
  rcases hmem with ((((hm | hm) | hm) | hm) | hm)
  · exact absurd hm (by decide)
  · exact absurd (natChars_mem hm) (by decide)
  · exact absurd hm (by decide)
  · have h1 : (chars "\n") <:+: t :=
      (singleton_infix_iff.mpr hm : (['\n'] : List Char) <:+: t)
    have h2 := isSubstr_iff_occurs.mpr h1
    rw [(cleanTitle_elim ht).2.2] at h2
    exact Bool.noConfusion h2
  · exact absurd hm (by decide)

theorem pySplit_joinSep_newline :
    ∀ (lines : List (List Char)), lines ≠ [] →
      (∀ line ∈ lines, ¬ (chars "\n") <:+: line) →
      pySplit (chars "\n") (joinSep (chars "\n") lines) = lines := by
  intro lines
  induction lines with
  | nil => intro h _; exact absurd rfl h
  | cons l ls ih =>
    intro _ hnl
    cases ls with
    | nil =>
      show splitScan (chars "\n") (joinSep (chars "\n") [l]) [] 0 = [l]
      rw [show joinSep (chars "\n") [l] = l from rfl]
      rw [splitScan_of_no_occ _ _ _ (hnl l (List.mem_cons_self _ _))]
      rfl
    | cons l2 ls' =>
      rw [joinSep_cons _ _ (by simp)]
      show splitScan (chars "\n") (l ++ chars "\n" ++ joinSep (chars "\n") (l2 :: ls')) [] 0 = _
      rw [splitScan_append_sep (chars "\n") (by decide) _ _ []
        (by rw [show (chars "\n").dropLast = ([] : List Char) from rfl, List.append_nil]
            exact hnl l (List.mem_cons_self _ _))]
      rw [show splitScan (chars "\n") (joinSep (chars "\n") (l2 :: ls')) [] 0 =
          pySplit (chars "\n") (joinSep (chars "\n") (l2 :: ls')) from rfl]
      rw [ih (by simp) (fun x hx => hnl x (List.mem_cons_of_mem _ hx))]
      simp

theorem parse_lines_reserialize_from :
    ∀ (ts : List (List Char)) (n : Nat), (∀ t ∈ ts, cleanTitle t = true) →
      parse_lines (reserialize_from n ts) = .ok ts := by
  intro ts
  induction ts with
  | nil => intro n _; rfl
  | cons t ts ih =>
    intro n hclean
    show parse_lines (reserialize_line n t :: reserialize_from (n + 1) ts) = _
    rw [parse_reserialize_line n (hclean t (List.mem_cons_self _ _)) _]
    rw [ih (n + 1) (fun x hx => hclean x (List.mem_cons_of_mem _ hx))]

theorem mem_reserialize_from :
    ∀ (ts : List (List Char)) (n : Nat) (l : List Char), l ∈ reserialize_from n ts →
      ∃ k t, t ∈ ts ∧ l = reserialize_line k t := by
  intro ts
  induction ts with
  | nil => intro n l hl; simp [reserialize_from] at hl
  | cons t ts ih =>
    intro n l hl
    rcases List.mem_cons.mp hl with h | h
    · exact ⟨n, t, List.mem_cons_self _ _, h⟩
    · obtain ⟨k, t', ht', he⟩ := ih (n + 1) l h
      exact ⟨k, t', List.mem_cons_of_mem _ ht', he⟩

/-- C9: the outline-parsing step is idempotent — when an outline parses to a
sequence of titles, re-serializing those titles into lines of the shape
`Slide <n>: [<title>] - <rest>` and parsing again yields the same titles. -/
theorem parse_reserialize_idempotent (s : List Char) (ts : List (List Char))
    (h : parse_slide_structure s = .ok ts) :
    parse_slide_structure (reserialize_outline ts) = .ok ts := by
  have hclean := parse_slide_structure_clean h
  cases ts with
  | nil => rfl
  | cons t ts' =>
    unfold parse_slide_structure reserialize_outline
    rw [pySplit_joinSep_newline (reserialize_from 1 (t :: ts'))
      (by simp [reserialize_from]) ?hnl]
    · exact parse_lines_reserialize_from (t :: ts') 1 hclean
    case hnl =>
      intro line hline
      obtain ⟨k, t', ht', he⟩ := mem_reserialize_from (t :: ts') 1 line hline
      subst he
      exact newline_not_in_reserialize_line k (hclean t' ht')

/-- Witness for C9 on a concrete outline. -/
theorem parse_reserialize_idempotent_witness :
    parse_slide_structure (reserialize_outline [chars "Introduction", chars "Conclusion"]) =
      .ok [chars "Introduction", chars "Conclusion"] :=
  parse_reserialize_idempotent
    (chars "Slide 2: [Introduction] - points\nSlide 5: [Conclusion] - end")
    [chars "Introduction", chars "Conclusion"] (by decide)

end PPTGen
